import Mathlib

/-!
Verification of the PII detection-and-redaction engine of
`backend/open_webui/middleware_pii.py`.

The Python module builds a catalog of regular expressions (compiled with
`re.IGNORECASE`), scans input text with `re.findall`, masks matches with
`re.sub`, and derives a risk level from the number of distinct matched
categories.  Every pattern in the catalog uses only a small regex subset:
single-character classes, bounded and unbounded greedy repetition of a
character class, concatenation, alternation, at most one capturing group,
and the word-boundary assertion.  The embedding below implements exactly
that subset with Python semantics: leftmost scan, left-biased alternation,
greedy repetition with backtracking, `findall` returning the group content
when the pattern has a capturing group and the whole match otherwise, and
`sub` replacing each non-overlapping match.
-/

/-- Model of a dynamically typed Python value, used for the `strict_mode`
argument of `PIIFilter.__init__`, which Python does not validate. -/
inductive PyValue where
  | bool (b : Bool)
  | int (n : Int)
  | str (s : String)
  | none
deriving DecidableEq, Repr

/-- Python truthiness, as used by `if self.strict_mode:`. -/
def truthy : PyValue → Bool
  | .bool b => b
  | .int n => n != 0
  | .str s => s != ""
  | .none => false

/-- Lower-casing of ASCII and Latin-1 letters, the case folding relevant to
`re.IGNORECASE` on the characters this repository handles. -/
def lowerL (c : Char) : Char :=
  if 'A' ≤ c && c ≤ 'Z' then Char.ofNat (c.toNat + 32)
  else if 0xC0 ≤ c.toNat && c.toNat ≤ 0xDE && c.toNat ≠ 0xD7 then Char.ofNat (c.toNat + 32)
  else c

/-- The class `\d`: ASCII decimal digits. -/
def isDigitC (c : Char) : Bool := '0' ≤ c && c ≤ '9'

/-- ASCII letters of either case: what `[A-Z]` or `[a-zA-Z]` matches under
`re.IGNORECASE`. -/
def isAsciiAlphaC (c : Char) : Bool := ('a' ≤ c && c ≤ 'z') || ('A' ≤ c && c ≤ 'Z')

/-- The class `\w` (Python Unicode word character), restricted to ASCII and
Latin-1: alphanumerics, underscore, and Latin-1 letters.  Unicode word
characters beyond Latin-1 are not represented. -/
def isWordC (c : Char) : Bool :=
  isDigitC c || isAsciiAlphaC c || c = '_' ||
  (0xC0 ≤ c.toNat && c.toNat ≤ 0xFF && c.toNat ≠ 0xD7 && c.toNat ≠ 0xF7)

/-- The class `\s` (Python Unicode whitespace), restricted to ASCII and
Latin-1: space, tab, newline, return, vertical tab, form feed, the file
separators 0x1C-0x1F, NEL and NBSP.  Unicode spaces beyond Latin-1 are not
represented. -/
def isSpaceC (c : Char) : Bool :=
  c = ' ' || c = '\t' || c = '\n' || c = '\r' || c.toNat = 11 || c.toNat = 12 ||
  (0x1C ≤ c.toNat && c.toNat ≤ 0x1F) || c.toNat = 0x85 || c.toNat = 0xA0

/-- Regex abstract syntax, restricted to the constructs appearing in the
`PIIFilter.PATTERNS` catalog: a character class, greedy repetition of a
character class (`min`/optional `max`), concatenation, alternation, one
capturing group, and the `\b` word-boundary assertion. -/
inductive RE where
  | eps
  | cls (p : Char → Bool)
  | rep (p : Char → Bool) (lo : Nat) (hi : Option Nat)
  | seq (a b : RE)
  | alt (a b : RE)
  | group (a : RE)
  | wordB

/-- Number of capturing groups of a pattern; `re.findall` returns group
content instead of the whole match exactly when this is at least 1. -/
def numGroups : RE → Nat
  | .eps => 0
  | .cls _ => 0
  | .rep _ _ _ => 0
  | .seq a b => numGroups a + numGroups b
  | .alt a b => numGroups a + numGroups b
  | .group a => numGroups a + 1
  | .wordB => 0

/-- Length of the maximal run of characters satisfying `p` at the head of
the list. -/
def leadCount (p : Char → Bool) : List Char → Nat
  | [] => 0
  | c :: t => if p c then leadCount p t + 1 else 0

/-- Result of a match attempt: the remaining input after the match together
with the captured group content, when any. -/
abbrev MRes := Option (List Char × Option (List Char))

/-- Continuation taking the remaining input, the previous character (for
word boundaries) and the group capture so far. -/
abbrev MCont := List Char → Option Char → Option (List Char) → MRes

/-- The character preceding position `j` of `s`, falling back to `pv` at
position 0. -/
def prevAt (s : List Char) (j : Nat) (pv : Option Char) : Option Char :=
  if j = 0 then pv else (s.take j).getLast?

/-- Greedy backtracking over a repetition count: try `j`, then `j - 1`,
down to `lo`; matches the priority order of Python greedy quantifiers. -/
def tryRepFrom (k : Nat → MRes) (lo : Nat) : Nat → MRes
  | 0 => if lo = 0 then k 0 else none
  | j + 1 =>
    if j + 1 < lo then none
    else
      match k (j + 1) with
      | some r => some r
      | Option.none => tryRepFrom k lo j

/-- Python `\b`: true when exactly one side of the position is a word
character (string edges count as non-word). -/
def wordBoundary (pv : Option Char) (s : List Char) : Bool :=
  (match pv with | some c => isWordC c | Option.none => false) !=
  (match s with | c :: _ => isWordC c | [] => false)

/-- Backtracking matcher in continuation-passing style.  Alternation is
left-biased and repetition greedy, the priority order of CPython `re`. -/
def mrun : RE → List Char → Option Char → Option (List Char) → MCont → MRes
  | .eps, s, pv, g, k => k s pv g
  | .cls p, s, _, g, k =>
    match s with
    | [] => none
    | c :: t => if p c then k t (some c) g else none
  | .rep p lo hi, s, pv, g, k =>
    let r := match hi with
      | Option.none => leadCount p s
      | some h => min h (leadCount p s)
    tryRepFrom (fun j => k (s.drop j) (prevAt s j pv) g) lo r
  | .seq a b, s, pv, g, k => mrun a s pv g (fun s1 pv1 g1 => mrun b s1 pv1 g1 k)
  | .alt a b, s, pv, g, k =>
    match mrun a s pv g k with
    | some r => some r
    | Option.none => mrun b s pv g k
  | .group a, s, pv, g, k =>
    mrun a s pv g (fun s1 pv1 _ => k s1 pv1 (some (s.take (s.length - s1.length))))
  | .wordB, s, pv, g, k => if wordBoundary pv s then k s pv g else none

/-- Attempt a match anchored at the current position. -/
def matchAt (re : RE) (s : List Char) (pv : Option Char) : MRes :=
  mrun re s pv Option.none (fun s1 _ g => some (s1, g))

/-- One element of a scan of the text: an unmatched character or a match
(its characters and its group capture). -/
inductive Piece where
  | raw (c : Char)
  | hit (m : List Char) (g : Option (List Char))

/-- Scan the text left to right, as `re.finditer` does: at each position
try an anchored match; on success continue after the match (advancing one
character when the match is empty), otherwise move one character on. -/
def scanPieces (re : RE) : Nat → List Char → Option Char → List Piece
  | 0, s, _ => s.map .raw
  | fuel + 1, s, pv =>
    match matchAt re s pv with
    | Option.none =>
      match s with
      | [] => []
      | c :: t => .raw c :: scanPieces re fuel t (some c)
    | some (rest, g) =>
      let m := s.take (s.length - rest.length)
      if m.isEmpty then
        match s with
        | [] => [.hit m g]
        | c :: t => .hit m g :: .raw c :: scanPieces re fuel t (some c)
      else
        .hit m g :: scanPieces re fuel rest m.getLast?

/-- The matches of a scan, in order of appearance. -/
def pieceHits : List Piece → List (List Char × Option (List Char))
  | [] => []
  | .raw _ :: ps => pieceHits ps
  | .hit m g :: ps => (m, g) :: pieceHits ps

/-- Python `pattern.findall(text)` for a pattern of at most one capturing
group: the whole match per hit when the pattern has no group, the group
content (empty string when the group did not participate) when it has
one. -/
def findall (re : RE) (t : String) : List String :=
  (pieceHits (scanPieces re (t.data.length + 1) t.data Option.none)).map
    (fun mg =>
      if 1 ≤ numGroups re then
        match mg.2 with
        | some gs => String.mk gs
        | Option.none => ""
      else String.mk mg.1)

/-- The full span of each match, in order of appearance, regardless of
groups. -/
def findSpans (re : RE) (t : String) : List String :=
  (pieceHits (scanPieces re (t.data.length + 1) t.data Option.none)).map
    (fun mg => String.mk mg.1)

/-- Python `pattern.sub(repl, text)`: every match replaced by `repl`
(the replacement strings of this module contain no backreferences). -/
def reSub (re : RE) (repl : String) (t : String) : String :=
  String.mk ((scanPieces re (t.data.length + 1) t.data Option.none).flatMap
    (fun p => match p with | .raw c => [c] | .hit _ _ => repl.data))

/-! ## The pattern catalog of `PIIFilter.PATTERNS` -/

/-- Literal character under `re.IGNORECASE`. -/
def chc (c : Char) : RE := .cls (fun x => lowerL x == lowerL c)

/-- Optional literal character (`c?`). -/
def optC (c : Char) : RE := .rep (fun x => lowerL x == lowerL c) 0 (some 1)

/-- Literal string under `re.IGNORECASE`. -/
def litS (s : String) : RE := s.data.foldr (fun c r => .seq (chc c) r) .eps

/-- Concatenation of a list of patterns. -/
def seqL (l : List RE) : RE := l.foldr .seq .eps

/-- Exactly `n` digits (`\d{n}`). -/
def dN (n : Nat) : RE := .rep isDigitC n (some n)

/-- Source pattern for CPF: `\d{3}\.\d{3}\.\d{3}-\d{2}|\d{11}`. -/
def cpfRE : RE :=
  .alt (seqL [dN 3, chc '.', dN 3, chc '.', dN 3, chc '-', dN 2]) (dN 11)

/-- The class `[a-zA-Z0-9._%+-]`. -/
def emailLocalC (c : Char) : Bool :=
  isAsciiAlphaC c || isDigitC c || c = '.' || c = '_' || c = '%' || c = '+' || c = '-'

/-- The class `[a-zA-Z0-9.-]`. -/
def emailDomC (c : Char) : Bool :=
  isAsciiAlphaC c || isDigitC c || c = '.' || c = '-'

/-- Source pattern for email: `[a-zA-Z0-9._%+-]+@[a-zA-Z0-9.-]+\.[a-zA-Z]{2,}`. -/
def emailRE : RE :=
  seqL [.rep emailLocalC 1 Option.none, chc '@', .rep emailDomC 1 Option.none,
        chc '.', .rep isAsciiAlphaC 2 Option.none]

/-- Source pattern for phone:
`\(?(\d{2})\)?\s?9?\d{4}-?\d{4}|\+55\s?\d{2}\s?\d{4,5}-?\d{4}`.
Its single capturing group is `(\d{2})` in the first alternative. -/
def phoneRE : RE :=
  .alt
    (seqL [optC '(', .group (dN 2), optC ')', .rep isSpaceC 0 (some 1), optC '9',
           dN 4, optC '-', dN 4])
    (seqL [chc '+', chc '5', chc '5', .rep isSpaceC 0 (some 1), dN 2,
           .rep isSpaceC 0 (some 1), .rep isDigitC 4 (some 5), optC '-', dN 4])

/-- The class `[\s-]`. -/
def spDashC (c : Char) : Bool := isSpaceC c || c = '-'

/-- Source pattern for credit card: `\b\d{4}[\s-]?\d{4}[\s-]?\d{4}[\s-]?\d{4}\b`. -/
def creditRE : RE :=
  seqL [.wordB, dN 4, .rep spDashC 0 (some 1), dN 4, .rep spDashC 0 (some 1),
        dN 4, .rep spDashC 0 (some 1), dN 4, .wordB]

/-- Source pattern for SSN: `\d{3}-\d{2}-\d{4}`. -/
def ssnRE : RE := seqL [dN 3, chc '-', dN 2, chc '-', dN 4]

/-- Source pattern for passport: `[A-Z]{2}\d{6,9}`.  Compiled with
`re.IGNORECASE`, so `[A-Z]` matches ASCII letters of either case. -/
def passportRE : RE :=
  .seq (.rep isAsciiAlphaC 2 (some 2)) (.rep isDigitC 6 (some 9))

/-- The class `[\s:]`. -/
def spColonC (c : Char) : Bool := isSpaceC c || c = ':'

/-- Source pattern for medical record:
`(MRN|record number|prontuário)[\s:]*\d+`. -/
def medicalRE : RE :=
  seqL [.group (.alt (litS "MRN") (.alt (litS "record number") (litS "prontuário"))),
        .rep spColonC 0 Option.none, .rep isDigitC 1 Option.none]

/-- The class `[\w\s]`. -/
def wordSpaceC (c : Char) : Bool := isWordC c || isSpaceC c

/-- Source pattern for address:
`\d+\s+[\w\s]+(?:street|avenue|road|st|ave|rd|rua|avenida)` (the trailing
alternative is non-capturing). -/
def addressRE : RE :=
  seqL [.rep isDigitC 1 Option.none, .rep isSpaceC 1 Option.none,
        .rep wordSpaceC 1 Option.none,
        .alt (litS "street") (.alt (litS "avenue") (.alt (litS "road")
          (.alt (litS "st") (.alt (litS "ave") (.alt (litS "rd")
            (.alt (litS "rua") (litS "avenida")))))))]

/-- The class matching a slash or a hyphen. -/
def slashDashC (c : Char) : Bool := c = '/' || c = '-'

/-- Source pattern for date of birth: two digits, slash-or-dash, two
digits, slash-or-dash, four digits, or the four-two-two variant. -/
def dobRE : RE :=
  .alt (seqL [dN 2, .cls slashDashC, dN 2, .cls slashDashC, dN 4])
       (seqL [dN 4, .cls slashDashC, dN 2, .cls slashDashC, dN 2])

/-- The class `[A-Z0-9]` under `re.IGNORECASE`: ASCII letters of either
case or digits. -/
def upAlnumC (c : Char) : Bool := isAsciiAlphaC c || isDigitC c

/-- Source pattern for insurance id: `(insurance|apólice)[\s:]*[A-Z0-9]{6,}`. -/
def insuranceRE : RE :=
  seqL [.group (.alt (litS "insurance") (litS "apólice")),
        .rep spColonC 0 Option.none, .rep upAlnumC 6 Option.none]

/-- Source pattern for bank account: `(account|conta)[\s:]*\d{8,17}`. -/
def bankRE : RE :=
  seqL [.group (.alt (litS "account") (litS "conta")),
        .rep spColonC 0 Option.none, .rep isDigitC 8 (some 17)]

/-- One to three digits, `\d{1,3}`. -/
def d13 : RE := .rep isDigitC 1 (some 3)

/-- Source pattern for IP address: `\b(?:\d{1,3}\.){3}\d{1,3}\b`, with the
bounded non-capturing repetition `(?:\d{1,3}\.){3}` unrolled. -/
def ipRE : RE :=
  seqL [.wordB, d13, chc '.', d13, chc '.', d13, chc '.', d13, .wordB]

/-! ## Data model -/

/-- The `PIICategory` enumeration of the source. -/
inductive PIICategory where
  | CPF | EMAIL | PHONE | CREDIT_CARD | SSN | PASSPORT | MEDICAL_RECORD
  | PATIENT_NAME | ADDRESS | DATE_OF_BIRTH | INSURANCE_ID | BANK_ACCOUNT
  | IP_ADDRESS
deriving DecidableEq, Repr

/-- The `value` string of each enum member. -/
def catValue : PIICategory → String
  | .CPF => "cpf"
  | .EMAIL => "email"
  | .PHONE => "phone"
  | .CREDIT_CARD => "credit_card"
  | .SSN => "ssn"
  | .PASSPORT => "passport"
  | .MEDICAL_RECORD => "medical_record"
  | .PATIENT_NAME => "patient_name"
  | .ADDRESS => "address"
  | .DATE_OF_BIRTH => "date_of_birth"
  | .INSURANCE_ID => "insurance_id"
  | .BANK_ACCOUNT => "bank_account"
  | .IP_ADDRESS => "ip_address"

/-- The `PIIFilter.PATTERNS` dict (which `__init__` compiles with
`re.IGNORECASE` into `compiled_patterns`), in Python dict insertion order.
`PATIENT_NAME` has no entry. -/
def compiledPatterns : List (PIICategory × RE) :=
  [(PIICategory.CPF, cpfRE),
   (PIICategory.EMAIL, emailRE),
   (PIICategory.PHONE, phoneRE),
   (PIICategory.CREDIT_CARD, creditRE),
   (PIICategory.SSN, ssnRE),
   (PIICategory.PASSPORT, passportRE),
   (PIICategory.MEDICAL_RECORD, medicalRE),
   (PIICategory.ADDRESS, addressRE),
   (PIICategory.DATE_OF_BIRTH, dobRE),
   (PIICategory.INSURANCE_ID, insuranceRE),
   (PIICategory.BANK_ACCOUNT, bankRE),
   (PIICategory.IP_ADDRESS, ipRE)]

/-- The `PIIDetectionResult` class.  `found_pii` is an association list in
insertion order, modelling a Python dict. -/
structure PIIDetectionResult where
  found_pii : List (PIICategory × List String)
  is_safe : Bool
  risk_level : String
  message : String
deriving DecidableEq, Repr

/-- The freshly constructed result: `found_pii = {}`, `is_safe = True`,
`risk_level = "low"`, `message = ""`. -/
def emptyResult : PIIDetectionResult := ⟨[], true, "low", ""⟩

/-- Extend a dict entry, as `found_pii[category].extend(values)` after
inserting an empty list when the key is missing. -/
def assocExtend (m : List (PIICategory × List String)) (c : PIICategory)
    (vs : List String) : List (PIICategory × List String) :=
  if m.any (fun p => p.1 = c) then
    m.map (fun p => if p.1 = c then (p.1, p.2 ++ vs) else p)
  else m ++ [(c, vs)]

/-- The `add_pii` method: record values under a category and clear the
safety flag. -/
def PIIDetectionResult.add_pii (r : PIIDetectionResult) (c : PIICategory)
    (vs : List String) : PIIDetectionResult :=
  { r with found_pii := assocExtend r.found_pii c vs, is_safe := false }

/-- The scanning loop of `detect_pii`: every catalog rule is run with
`findall` against the text, and each nonempty match list is recorded with
`add_pii`. -/
def detectScan (text : String) : PIIDetectionResult :=
  compiledPatterns.foldl
    (fun r p => if findall p.2 text ≠ [] then r.add_pii p.1 (findall p.2 text) else r)
    emptyResult

/-- The `PIIFilter.detect_pii` method: empty text returns the fresh result
at once; otherwise the catalog is scanned and the risk level and message
are derived from the number of distinct recorded categories
(`len(result.found_pii)`). -/
def detect_pii (text : String) : PIIDetectionResult :=
  if text = "" then emptyResult
  else if (detectScan text).found_pii.length = 0 then
    { detectScan text with risk_level := "low", message := "No PII detected" }
  else if (detectScan text).found_pii.length = 1 then
    { detectScan text with risk_level := "medium", message := "Single PII type detected" }
  else
    { detectScan text with risk_level := "high", message := "Multiple PII types detected" }

/-- The replacement text the `sanitize_query` if-chain picks per category. -/
def replFor (c : PIICategory) : String :=
  if c = .CPF then "[CPF REMOVED]"
  else if c = .EMAIL then "[EMAIL REMOVED]"
  else if c = .PHONE then "[PHONE REMOVED]"
  else if c = .CREDIT_CARD then "[CARD REMOVED]"
  else if c = .PATIENT_NAME then "[NAME REMOVED]"
  else if c = .ADDRESS then "[ADDRESS REMOVED]"
  else if c = .MEDICAL_RECORD then "[MRN REMOVED]"
  else "[" ++ (catValue c).toUpper ++ " REMOVED]"

/-- The `PIIFilter.sanitize_query` method: apply `pattern.sub` for every
catalog rule in order, each on the output of the previous one. -/
def sanitize_query (text : String) : String :=
  compiledPatterns.foldl (fun s p => reSub p.2 (replFor p.1) s) text

/-- The `PIIFilter` object state: the `strict_mode` attribute stored as
passed (Python performs no validation of it). -/
structure PIIFilter where
  strict_mode : PyValue

/-- The `PIIFilter.__init__` constructor: stores `strict_mode` unchecked
and compiles the constant catalog; no code path raises. -/
def piiFilterInit (strict_mode : PyValue) : Except String PIIFilter :=
  Except.ok ⟨strict_mode⟩

/-- The `PIIFilter.validate_query` method. -/
def validate_query (f : PIIFilter) (query : String) :
    Bool × String × PIIDetectionResult :=
  let result := detect_pii query
  if result.is_safe then
    (true, "Query is safe - no PII detected", result)
  else if truthy f.strict_mode then
    (false,
     "BLOCKED: " ++ result.message ++ ". Detected: " ++
       String.intercalate ", " (result.found_pii.map (fun p => catValue p.1)),
     result)
  else
    (true,
     "WARNING: " ++ result.message ++ ". Detected: " ++
       String.intercalate ", " (result.found_pii.map (fun p => catValue p.1)),
     result)

/-- The `PIIFilter.SENSITIVE_KEYWORDS` list, verbatim (note the two
upper-case entries). -/
def SENSITIVE_KEYWORDS : List String :=
  ["paciente", "patient", "nome", "name", "data de nascimento",
   "date of birth", "endereço", "address", "telefone", "phone",
   "CPF", "RG", "prontuário", "medical record", "histórico médico",
   "medical history", "diagnóstico", "diagnosis", "tratamento",
   "treatment", "medicação", "medication", "alergia", "allergy"]

/-- Does `hay` start with `needle`. -/
def leadsWith : List Char → List Char → Bool
  | [], _ => true
  | _ :: _, [] => false
  | a :: t, b :: u => a = b && leadsWith t u

/-- Python substring containment `needle in hay`. -/
def hasSub (needle : List Char) : List Char → Bool
  | [] => leadsWith needle []
  | c :: u => leadsWith needle (c :: u) || hasSub needle u

/-- Python `str.lower()`, on the ASCII and Latin-1 letters this repository
uses. -/
def pyLower (s : String) : String := String.mk (s.data.map lowerL)

/-- The `PIIFilter.check_patient_context` method: lower-case the text, then
test each keyword for literal substring containment. -/
def check_patient_context (text : String) : Bool :=
  SENSITIVE_KEYWORDS.any (fun kw => hasSub kw.data (pyLower text).data)

/-- The per-text recording function of the detection fold. -/
def recordOf (t : String) (p : PIICategory × RE) : Option (PIICategory × List String) :=
  if findall p.2 t ≠ [] then some (p.1, findall p.2 t) else none

/-- The number of distinct categories with at least one match in the text. -/
def matchedCategoryCount (t : String) : Nat :=
  (compiledPatterns.filter (fun p => !(findall p.2 t).isEmpty)).length

/-- Dict lookup in the `found_pii` association list. -/
def assocFind (m : List (PIICategory × List String)) (c : PIICategory) : Option (List String) :=
  match m with
  | [] => Option.none
  | p :: t => if p.1 = c then some p.2 else assocFind t c

/-! ## Helper lemmas -/

/-- Rebuilding a string from its character list is the identity. -/
theorem stringMk_data (s : String) : String.mk s.data = s := by
  cases s
  rfl


/-- Extending a dict at a key not yet present appends a fresh entry. -/
theorem assocExtend_notMem (m : List (PIICategory × List String)) (c : PIICategory)
    (vs : List String) (h : ∀ p ∈ m, p.1 ≠ c) :
    assocExtend m c vs = m ++ [(c, vs)] := by
  unfold assocExtend
  rw [if_neg]
  simp only [List.any_eq_true, decide_eq_true_eq, not_exists]
  intro p hp
  exact h p hp.1 hp.2

/-- Characterization of the detection fold: starting from an accumulator
whose keys avoid the (duplicate-free) keys of the remaining catalog, the
fold appends one entry per matching rule, in catalog order, and the safety
flag clears exactly when some rule matched. -/
theorem foldl_scan_spec (t : String) :
    ∀ (l : List (PIICategory × RE)) (r : PIIDetectionResult),
      (l.map Prod.fst).Nodup →
      (∀ c ∈ l.map Prod.fst, c ∉ r.found_pii.map Prod.fst) →
      (l.foldl (fun r p => if findall p.2 t ≠ [] then r.add_pii p.1 (findall p.2 t) else r)
          r).found_pii
        = r.found_pii ++ l.filterMap (recordOf t)
      ∧ (l.foldl (fun r p => if findall p.2 t ≠ [] then r.add_pii p.1 (findall p.2 t) else r)
          r).is_safe
        = (r.is_safe && (l.filterMap (recordOf t)).isEmpty) := by
  intro l
  induction l with
  | nil =>
    intro r _ _
    simp [List.foldl]
  | cons p l ih =>
    intro r hnd hdisj
    have hnd2 : (p.1 :: l.map Prod.fst).Nodup := by simpa using hnd
    have hndTail : (l.map Prod.fst).Nodup := (List.nodup_cons.mp hnd2).2
    have hheadNotTail : p.1 ∉ l.map Prod.fst := (List.nodup_cons.mp hnd2).1
    by_cases hm : findall p.2 t = []
    · have hrec : recordOf t p = none := by simp [recordOf, hm]
      have hdisjTail : ∀ c ∈ l.map Prod.fst, c ∉ r.found_pii.map Prod.fst := by
        intro c hc
        exact hdisj c (by simp [hc])
      have := ih r hndTail hdisjTail
      simpa [List.foldl_cons, hm, List.filterMap_cons, hrec] using this
    · have hrec : recordOf t p = some (p.1, findall p.2 t) := by simp [recordOf, hm]
      have hfree : ∀ q ∈ r.found_pii, q.1 ≠ p.1 := by
        intro q hq hqc
        exact hdisj p.1 (by simp) (List.mem_map.mpr ⟨q, hq, hqc⟩)
      have hext :
          (r.add_pii p.1 (findall p.2 t)).found_pii = r.found_pii ++ [(p.1, findall p.2 t)] := by
        simp [PIIDetectionResult.add_pii, assocExtend_notMem _ _ _ hfree]
      have hdisjTail :
          ∀ c ∈ l.map Prod.fst, c ∉ (r.add_pii p.1 (findall p.2 t)).found_pii.map Prod.fst := by
        intro c hc
        rw [hext]
        simp only [List.map_append, List.mem_append, List.map_cons, List.map_nil]
        rintro (h1 | h2)
        · exact hdisj c (by simp [hc]) h1
        · have : c = p.1 := by simpa using h2
          exact hheadNotTail (this ▸ hc)
      have := ih (r.add_pii p.1 (findall p.2 t)) hndTail hdisjTail
      rcases this with ⟨h1, h2⟩
      constructor
      · rw [List.foldl_cons, if_pos hm, h1, hext, List.filterMap_cons, hrec]
        simp
      · rw [List.foldl_cons, if_pos hm, h2, List.filterMap_cons, hrec]
        simp [PIIDetectionResult.add_pii]

/-- The catalog has pairwise distinct category keys. -/
theorem compiledPatterns_keys_nodup : (compiledPatterns.map Prod.fst).Nodup := by
  decide

/-- The scan records exactly the rules with a nonempty match list, in
catalog order. -/
theorem detectScan_found (t : String) :
    (detectScan t).found_pii = compiledPatterns.filterMap (recordOf t) := by
  have := foldl_scan_spec t compiledPatterns emptyResult compiledPatterns_keys_nodup
    (by intro c _ h; simp [emptyResult] at h)
  simpa [detectScan, emptyResult] using this.1

/-- The scan is safe exactly when no rule matched. -/
theorem detectScan_safe (t : String) :
    (detectScan t).is_safe = (compiledPatterns.filterMap (recordOf t)).isEmpty := by
  have := foldl_scan_spec t compiledPatterns emptyResult compiledPatterns_keys_nodup
    (by intro c _ h; simp [emptyResult] at h)
  simpa [detectScan, emptyResult] using this.2

/-- The risk/message finalization leaves the recorded categories unchanged. -/
theorem detect_pii_found (t : String) (h : t ≠ "") :
    (detect_pii t).found_pii = (detectScan t).found_pii := by
  unfold detect_pii
  rw [if_neg h]
  split
  · rfl
  · split <;> rfl

/-- The risk/message finalization leaves the safety flag unchanged. -/
theorem detect_pii_safe (t : String) (h : t ≠ "") :
    (detect_pii t).is_safe = (detectScan t).is_safe := by
  unfold detect_pii
  rw [if_neg h]
  split
  · rfl
  · split <;> rfl


/-- The filterMap of records and the filter of matching rules have the same
length. -/
theorem filterMap_record_length (t : String) (l : List (PIICategory × RE)) :
    (l.filterMap (recordOf t)).length = (l.filter (fun p => !(findall p.2 t).isEmpty)).length := by
  induction l with
  | nil => rfl
  | cons p l ih =>
    by_cases hm : findall p.2 t = []
    · simp [List.filterMap_cons, List.filter_cons, recordOf, hm, ih]
    · simp [List.filterMap_cons, List.filter_cons, recordOf, hm, ih, List.isEmpty_iff]

/-- The scan records exactly as many entries as there are matching rules. -/
theorem detectScan_length (t : String) :
    (detectScan t).found_pii.length = matchedCategoryCount t := by
  rw [detectScan_found, matchedCategoryCount, filterMap_record_length]

/-- No catalog rule matches inside the empty string. -/
theorem findall_empty_string : ∀ p ∈ compiledPatterns, findall p.2 "" = [] := by
  decide

/-- When the scan is safe, every catalog rule has an empty match list. -/
theorem detectScan_safe_no_match (t : String) (h : (detectScan t).is_safe = true) :
    ∀ p ∈ compiledPatterns, findall p.2 t = [] := by
  rw [detectScan_safe] at h
  have hnil : compiledPatterns.filterMap (recordOf t) = [] := List.isEmpty_iff.mp h
  intro p hp
  have := (List.filterMap_eq_nil_iff.mp hnil) p hp
  by_contra hne
  rw [recordOf, if_pos hne] at this
  exact Option.noConfusion this

/-- A fully-raw piece list has no hits. -/
theorem pieceHits_map_raw (s : List Char) : pieceHits (s.map Piece.raw) = [] := by
  induction s with
  | nil => rfl
  | cons c t ih => simpa [pieceHits] using ih

/-- Flattening a fully-raw piece list reproduces the characters. -/
theorem flatMap_map_raw (repl : String) (s : List Char) :
    (s.map Piece.raw).flatMap
      (fun p => match p with | Piece.raw c => [c] | Piece.hit _ _ => repl.data) = s := by
  induction s with
  | nil => rfl
  | cons c t ih => simp [List.flatMap_cons, ih]

/-- A scan of a text where the pattern never matches consists of raw
characters only, so flattening it with any replacement returns the text. -/
theorem scan_no_hit_flat (re : RE) (repl : String) :
    ∀ (fuel : Nat) (s : List Char) (pv : Option Char),
      pieceHits (scanPieces re fuel s pv) = [] →
      (scanPieces re fuel s pv).flatMap
        (fun p => match p with | .raw c => [c] | .hit _ _ => repl.data) = s := by
  intro fuel
  induction fuel with
  | zero =>
    intro s pv _
    exact flatMap_map_raw repl s
  | succ fuel ih =>
    intro s pv hnone
    simp only [scanPieces] at hnone ⊢
    cases hmatch : matchAt re s pv with
    | none =>
      rw [hmatch] at hnone
      dsimp only at hnone ⊢
      cases s with
      | nil => rfl
      | cons c t =>
        dsimp only at hnone ⊢
        rw [pieceHits] at hnone
        simp only [List.flatMap_cons]
        rw [ih t (some c) hnone]
        rfl
    | some rg =>
      exfalso
      rcases rg with ⟨rest, g⟩
      rw [hmatch] at hnone
      dsimp only at hnone
      by_cases hemp : (List.take (s.length - rest.length) s).isEmpty = true
      · rw [if_pos hemp] at hnone
        cases s with
        | nil => simp [pieceHits] at hnone
        | cons c t => simp [pieceHits] at hnone
      · rw [if_neg hemp] at hnone
        simp [pieceHits] at hnone

/-- Substitution on a text with no match is the identity. -/
theorem reSub_no_match (re : RE) (repl : String) (t : String)
    (h : findall re t = []) :
    reSub re repl t = t := by
  have hhits : pieceHits (scanPieces re (t.data.length + 1) t.data Option.none) = [] := by
    have := h
    rw [findall] at this
    exact List.map_eq_nil_iff.mp this
  rw [reSub, scan_no_hit_flat re repl _ _ _ hhits, stringMk_data]

/-- Folding substitutions over rules none of which match leaves the text
unchanged. -/
theorem foldl_reSub_id (t : String) :
    ∀ (l : List (PIICategory × RE)),
      (∀ p ∈ l, findall p.2 t = []) →
      l.foldl (fun s p => reSub p.2 (replFor p.1) s) t = t := by
  intro l
  induction l with
  | nil => intro _; rfl
  | cons p l ih =>
    intro hall
    rw [List.foldl_cons, reSub_no_match p.2 (replFor p.1) t (hall p (by simp))]
    exact ih (fun q hq => hall q (by simp [hq]))


/-- Looking up a matching rule of the catalog in the recorded entries
returns exactly the findall result of that rule. -/
theorem assocFind_filterMap (t : String) (c : PIICategory) (re : RE) :
    ∀ (l : List (PIICategory × RE)), (l.map Prod.fst).Nodup → (c, re) ∈ l →
      findall re t ≠ [] →
      assocFind (l.filterMap (recordOf t)) c = some (findall re t) := by
  intro l
  induction l with
  | nil =>
    intro _ h _
    exact absurd h (List.not_mem_nil _)
  | cons p l ih =>
    intro hnd hmem hne
    have hnd2 : (p.1 :: l.map Prod.fst).Nodup := by simpa using hnd
    rcases List.mem_cons.mp hmem with heq | htail
    · subst heq
      rw [List.filterMap_cons]
      have hrec : recordOf t (c, re) = some (c, findall re t) := by
        simp [recordOf, hne]
      rw [hrec, assocFind, if_pos rfl]
    · have hcl : c ∈ l.map Prod.fst := List.mem_map.mpr ⟨(c, re), htail, rfl⟩
      have hpc : p.1 ≠ c := by
        intro h
        exact (List.nodup_cons.mp hnd2).1 (h ▸ hcl)
      rw [List.filterMap_cons]
      by_cases hm : findall p.2 t = []
      · rw [recordOf, if_neg (by simpa using hm)]
        exact ih (List.nodup_cons.mp hnd2).2 htail hne
      · rw [recordOf, if_pos hm, assocFind, if_neg hpc]
        exact ih (List.nodup_cons.mp hnd2).2 htail hne

/-- A pattern without capturing groups reports full match spans. -/
theorem findall_eq_spans_of_noGroup (re : RE) (t : String) (h : numGroups re = 0) :
    findall re t = findSpans re t := by
  simp [findall, findSpans, h]

/-- Success condition of the greedy count backtracking: some count between
the lower bound and the available maximum makes the continuation succeed. -/
theorem tryRepFrom_isSome (k : Nat → MRes) (lo : Nat) :
    ∀ r, (tryRepFrom k lo r).isSome = true ↔
      ∃ j, lo ≤ j ∧ j ≤ r ∧ (k j).isSome = true := by
  intro r
  induction r with
  | zero =>
    rw [tryRepFrom]
    by_cases h : lo = 0
    · subst h
      simp only [if_pos rfl]
      constructor
      · intro hk
        exact ⟨0, le_refl 0, le_refl 0, hk⟩
      · rintro ⟨j, hlo, hj, hk⟩
        have hj0 : j = 0 := Nat.le_zero.mp hj
        exact hj0 ▸ hk
    · rw [if_neg h]
      simp only [Option.isSome_none, Bool.false_eq_true, false_iff]
      rintro ⟨j, hlo, hj, _⟩
      exact h (Nat.le_zero.mp (le_trans hlo hj))
  | succ r ih =>
    rw [tryRepFrom]
    by_cases h : r + 1 < lo
    · rw [if_pos h]
      simp only [Option.isSome_none, Bool.false_eq_true, false_iff]
      rintro ⟨j, hlo, hj, _⟩
      omega
    · rw [if_neg h]
      cases hk : k (r + 1) with
      | some v =>
        simp only [Option.isSome_some, true_iff]
        exact ⟨r + 1, by omega, le_refl _, by rw [hk]; rfl⟩
      | none =>
        rw [ih]
        constructor
        · rintro ⟨j, hlo, hj, hkj⟩
          exact ⟨j, hlo, by omega, hkj⟩
        · rintro ⟨j, hlo, hj, hkj⟩
          rcases Nat.lt_or_ge j (r + 1) with hlt | hge
          · exact ⟨j, hlo, by omega, hkj⟩
          · have : j = r + 1 := by omega
            subst this
            rw [hk] at hkj
            exact absurd hkj (by simp)

/-! ## Claims -/

/-- C1: for every input text the risk level of the result of `detect_pii`
is a function of the number of distinct categories with at least one
match: zero gives low, one gives medium, two or more give high, regardless
of occurrence counts. -/
theorem claim1_risk_level_counts_categories (t : String) :
    (detect_pii t).risk_level =
      (if matchedCategoryCount t = 0 then "low"
       else if matchedCategoryCount t = 1 then "medium"
       else "high") := by
  by_cases ht : t = ""
  · subst ht
    have h0 : matchedCategoryCount "" = 0 := by decide
    rw [h0]
    rfl
  · unfold detect_pii
    rw [if_neg ht, ← detectScan_length]
    split_ifs <;> rfl

/-- C2: in strict mode `validate_query` rejects whenever `detect_pii`
reports unsafe, and in permissive mode it accepts every input; rejection
is a returned boolean, both functions being total. -/
theorem claim2_validate_mode_policy (q : String) :
    ((detect_pii q).is_safe = false →
      (validate_query ⟨PyValue.bool true⟩ q).1 = false)
    ∧ (validate_query ⟨PyValue.bool false⟩ q).1 = true := by
  constructor
  · intro h
    simp [validate_query, h, truthy]
  · cases hsafe : (detect_pii q).is_safe <;> simp [validate_query, hsafe, truthy]

/-- C2 witness: a concrete unsafe input is rejected in strict mode and
accepted in permissive mode. -/
theorem claim2_validate_mode_policy_witness :
    (validate_query ⟨PyValue.bool true⟩ "1.1.1.1").1 = false
    ∧ (validate_query ⟨PyValue.bool false⟩ "1.1.1.1").1 = true :=
  ⟨(claim2_validate_mode_policy "1.1.1.1").1 (by decide),
   (claim2_validate_mode_policy "1.1.1.1").2⟩

/-- C6 counterexample: constructing the filter with a non-boolean mode
value does not fail at all, contradicting fail-fast validation. -/
theorem claim6_counterexample_init_accepts_invalid :
    piiFilterInit (PyValue.str "not-a-mode") = Except.ok ⟨PyValue.str "not-a-mode"⟩ := rfl

/-- C6 amended: the constructor accepts every mode value without any
validation or error and stores it unchanged; the mode is fixed at
construction (validation reads the stored attribute, taking no per-call
mode). -/
theorem claim6_init_never_validates (v : PyValue) :
    piiFilterInit v = Except.ok ⟨v⟩ := rfl

/-- C10: both in strict and permissive mode, the third component of the
`validate_query` tuple is exactly the result of `detect_pii` on the query,
all fields unchanged. -/
theorem claim10_validate_preserves_result (m : PyValue) (q : String) :
    (validate_query ⟨m⟩ q).2.2 = detect_pii q := by
  unfold validate_query
  dsimp only
  split_ifs <;> rfl

/-- C3 counterexample: on the text `(11) 98765-4321` the phone rule
matches the full span `(11) 98765-4321`, but `detect_pii` records only
`11`, the content of the capturing group, so the recorded value is not the
full span each rule matched. -/
theorem claim3_counterexample_phone_group :
    findSpans phoneRE "(11) 98765-4321" = ["(11) 98765-4321"]
    ∧ (detect_pii "(11) 98765-4321").found_pii = [(PIICategory.PHONE, ["11"])]
    ∧ ("11" : String) ≠ "(11) 98765-4321" := by
  refine ⟨by decide, by decide, by decide⟩

/-- C3 amended: for every text and catalog rule with a nonempty match
list, the result records under that category exactly the list that
`findall` produces in order of appearance: the full matched spans when the
rule has no capturing group, and the group contents when it has one. -/
theorem claim3_records_findall (t : String) (c : PIICategory) (re : RE)
    (hmem : (c, re) ∈ compiledPatterns) (hne : findall re t ≠ []) :
    assocFind (detect_pii t).found_pii c = some (findall re t)
    ∧ (numGroups re = 0 → findall re t = findSpans re t) := by
  constructor
  · by_cases ht : t = ""
    · subst ht
      exact absurd (findall_empty_string (c, re) hmem) hne
    · rw [detect_pii_found t ht, detectScan_found]
      exact assocFind_filterMap t c re compiledPatterns compiledPatterns_keys_nodup hmem hne
  · exact findall_eq_spans_of_noGroup re t

/-- C3 witness: the SSN rule (no capturing group) on a concrete text. -/
theorem claim3_records_findall_witness :
    assocFind (detect_pii "123-45-6789").found_pii PIICategory.SSN = some ["123-45-6789"] := by
  have h := claim3_records_findall "123-45-6789" PIICategory.SSN ssnRE
    (by unfold compiledPatterns; exact List.mem_cons_of_mem _ (List.mem_cons_of_mem _
      (List.mem_cons_of_mem _ (List.mem_cons_of_mem _ (List.mem_cons_self _ _)))))
    (by decide)
  rw [h.1]
  decide

/-- C4: the code cannot honour the case-insensitive keyword contract for
the keyword `CPF`: it lower-cases the text but compares against the
upper-case keyword, so texts containing `CPF` or `cpf` (and no other
keyword) are reported as having no patient context although `CPF` is in
the keyword list. -/
theorem claim4_uppercase_keyword_dead :
    check_patient_context "CPF" = false
    ∧ check_patient_context "cpf" = false
    ∧ "CPF" ∈ SENSITIVE_KEYWORDS := by
  refine ⟨by decide, by decide, by decide⟩

/-- C5 counterexample: the input `ab123456`, two lower-case letters
followed by six digits, contains no upper-case character, yet `detect_pii`
reports the passport category, because the catalog is compiled with
`re.IGNORECASE`. -/
theorem claim5_counterexample_lowercase_passport :
    (detect_pii "ab123456").found_pii = [(PIICategory.PASSPORT, ["ab123456"])]
    ∧ (∀ c ∈ "ab123456".data, ¬('A' ≤ c ∧ c ≤ 'Z')) := by
  refine ⟨by decide, by decide⟩

/-- C7: on any text where detection finds no PII, `sanitize_query` returns
the text unchanged and is therefore idempotent there; on the empty string
it returns the empty string; it is a total function of the input. -/
theorem claim7_sanitize_identity_on_safe :
    (∀ t, (detect_pii t).is_safe = true →
      sanitize_query t = t ∧ sanitize_query (sanitize_query t) = sanitize_query t)
    ∧ sanitize_query "" = "" := by
  constructor
  · intro t hsafe
    have hid : sanitize_query t = t := by
      by_cases ht : t = ""
      · subst ht
        decide
      · have hs : (detectScan t).is_safe = true := by
          rw [← detect_pii_safe t ht]
          exact hsafe
        have hall := detectScan_safe_no_match t hs
        unfold sanitize_query
        exact foldl_reSub_id t compiledPatterns hall
    exact ⟨hid, by rw [hid, hid]⟩
  · decide

/-- C7 witness: a concrete PII-free text passes through unchanged. -/
theorem claim7_sanitize_identity_witness :
    (detect_pii "hello").is_safe = true ∧ sanitize_query "hello" = "hello" :=
  ⟨by decide, (claim7_sanitize_identity_on_safe.1 "hello" (by decide)).1⟩

/-- C8: the empty string yields the empty-but-safe result (safe flag set,
no categories, low risk) without any recording, sanitizing it returns the
empty string, and validation accepts it in both modes. -/
theorem claim8_empty_input :
    detect_pii "" = emptyResult
    ∧ (detect_pii "").is_safe = true
    ∧ (detect_pii "").found_pii = []
    ∧ (detect_pii "").risk_level = "low"
    ∧ sanitize_query "" = ""
    ∧ (validate_query ⟨PyValue.bool true⟩ "").1 = true
    ∧ (validate_query ⟨PyValue.bool false⟩ "").1 = true := by
  refine ⟨by decide, by decide, by decide, by decide, by decide, by decide, by decide⟩

/-- C5 amended: since the catalog is compiled with `re.IGNORECASE`, the
passport rule matches at a position precisely when two ASCII letters of
either case are followed by at least six digits (the match then consumes
at most nine of them); the upper-case-only reading is refuted by the
counterexample. -/
theorem claim5_passport_case_insensitive (s : List Char) (pv : Option Char) :
    (matchAt passportRE s pv).isSome = true ↔
      2 ≤ leadCount isAsciiAlphaC s ∧ 6 ≤ leadCount isDigitC (s.drop 2) := by
  unfold matchAt passportRE
  simp only [mrun]
  rw [tryRepFrom_isSome]
  constructor
  · rintro ⟨j, h2j, hjmin, hk⟩
    rw [tryRepFrom_isSome] at hk
    rcases hk with ⟨j2, h6j2, hj2min, -⟩
    have hj2 : j = 2 := by omega
    subst hj2
    refine ⟨by omega, by omega⟩
  · rintro ⟨hA, hD⟩
    refine ⟨2, le_refl 2, by omega, ?_⟩
    rw [tryRepFrom_isSome]
    exact ⟨6, le_refl 6, by omega, rfl⟩

/-- C9: on the concrete scenario input, detection reports exactly the CPF
and date-of-birth categories in catalog order, hence high risk, and strict
validation rejects with a message listing `cpf, date_of_birth`. -/
theorem claim9_concrete_scenario :
    (detect_pii "Paciente João Silva, CPF 123.456.789-10, nascido em 15/05/1980").found_pii
      = [(PIICategory.CPF, ["123.456.789-10"]),
         (PIICategory.DATE_OF_BIRTH, ["15/05/1980"])]
    ∧ (detect_pii "Paciente João Silva, CPF 123.456.789-10, nascido em 15/05/1980").risk_level
      = "high"
    ∧ validate_query ⟨PyValue.bool true⟩
        "Paciente João Silva, CPF 123.456.789-10, nascido em 15/05/1980"
      = (false, "BLOCKED: Multiple PII types detected. Detected: cpf, date_of_birth",
         detect_pii "Paciente João Silva, CPF 123.456.789-10, nascido em 15/05/1980") := by
  refine ⟨by decide, by decide, by decide⟩
